import Mathlib

/-!
Verification of the line-formatting core (ContinuationIndenter / UnwrappedLineParser)
against its design specification.

The structures `ParenState`, `LineState`, `UnwrappedLine`, `UnwrappedLineNode` and the
enum `PPBranchKind`, together with the comparison operators `ParenState.lt`
(ParenState::operator<), `LineState.lt` (LineState::operator<), the vector comparison
`vecLt` (std::vector::operator<, i.e. std::lexicographical_compare) and the default
constructor `UnwrappedLine.mkDefault`, are shallow embeddings of the inline code in
src/lib/Format/ContinuationIndenter.h and src/lib/Format/UnwrappedLineParser.h.

Pointers (FormatToken *, const AnnotatedLine *) are modelled as natural-number
identities; C++ `unsigned` fields are modelled as `Nat` (no arithmetic is performed on
them by the embedded comparison code, so no overflow wrapping is involved); C++ `bool`
comparisons `a < b` (false before true) and `return a` on inequality (true before
false) are embedded explicitly.

The member functions of UnwrappedLineParser and ContinuationIndenter whose bodies are
not part of the repository snapshot (only their declarations and doc comments are) are
modelled from the specification; each such definition carries a doc comment starting
with "Modelled from the spec:".
-/

namespace ClangFormat

/-- A ParenState value: the per-parenthesis-level state of the indenter, embedding the
struct `ParenState` of ContinuationIndenter.h field by field. -/
structure ParenState where
  Indent : Nat
  LastSpace : Nat
  FirstLessLess : Nat
  BreakBeforeClosingBrace : Bool
  QuestionColumn : Nat
  AvoidBinPacking : Bool
  BreakBeforeParameter : Bool
  NoLineBreak : Bool
  ColonPos : Nat
  StartOfFunctionCall : Nat
  StartOfArraySubscripts : Nat
  NestedNameSpecifierContinuation : Nat
  CallContinuation : Nat
  VariablePos : Nat
  ContainsLineBreak : Bool
  ContainsUnwrappedBuilder : Bool
deriving DecidableEq, Repr

/-- C++ comparison `a < b` on two `bool` values: `false < true`. -/
def boolLt (a b : Bool) : Bool := !a && b

/-- Embedding of `ParenState::operator<` (ContinuationIndenter.h, lines 192-224): a
chain of field comparisons; a `bool` field compared via `return Field;` sorts `true`
first, a `bool` field compared via `return Field < Other.Field;` sorts `false`
first. -/
def ParenState.lt (s o : ParenState) : Bool :=
  if s.Indent ≠ o.Indent then decide (s.Indent < o.Indent)
  else if s.LastSpace ≠ o.LastSpace then decide (s.LastSpace < o.LastSpace)
  else if s.FirstLessLess ≠ o.FirstLessLess then decide (s.FirstLessLess < o.FirstLessLess)
  else if s.BreakBeforeClosingBrace ≠ o.BreakBeforeClosingBrace then s.BreakBeforeClosingBrace
  else if s.QuestionColumn ≠ o.QuestionColumn then decide (s.QuestionColumn < o.QuestionColumn)
  else if s.AvoidBinPacking ≠ o.AvoidBinPacking then s.AvoidBinPacking
  else if s.BreakBeforeParameter ≠ o.BreakBeforeParameter then s.BreakBeforeParameter
  else if s.NoLineBreak ≠ o.NoLineBreak then s.NoLineBreak
  else if s.ColonPos ≠ o.ColonPos then decide (s.ColonPos < o.ColonPos)
  else if s.StartOfFunctionCall ≠ o.StartOfFunctionCall then
    decide (s.StartOfFunctionCall < o.StartOfFunctionCall)
  else if s.StartOfArraySubscripts ≠ o.StartOfArraySubscripts then
    decide (s.StartOfArraySubscripts < o.StartOfArraySubscripts)
  else if s.CallContinuation ≠ o.CallContinuation then
    decide (s.CallContinuation < o.CallContinuation)
  else if s.VariablePos ≠ o.VariablePos then decide (s.VariablePos < o.VariablePos)
  else if s.ContainsLineBreak ≠ o.ContainsLineBreak then
    boolLt s.ContainsLineBreak o.ContainsLineBreak
  else if s.ContainsUnwrappedBuilder ≠ o.ContainsUnwrappedBuilder then
    boolLt s.ContainsUnwrappedBuilder o.ContainsUnwrappedBuilder
  else false

/-- Embedding of `std::vector::operator<`, i.e. `std::lexicographical_compare` with the
element comparison `lt`: the first pair of elements on which one side compares strictly
less decides; a strict prefix is less than the longer sequence. -/
def vecLt (lt : α → α → Bool) : List α → List α → Bool
  | _, [] => false
  | [], _ :: _ => true
  | a :: as, b :: bs => if lt a b then true else if lt b a then false else vecLt lt as bs

/-- A LineState value: the search state of the indenter, embedding the struct
`LineState` of ContinuationIndenter.h field by field.  `NextToken` (a
`const FormatToken *`) and `Line` (a `const AnnotatedLine *`) are pointer identities,
modelled as natural numbers. -/
structure LineState where
  Column : Nat
  NextToken : Nat
  LineContainsContinuedForLoopSection : Bool
  ParenLevel : Nat
  StartOfLineLevel : Nat
  LowestLevelOnLine : Nat
  StartOfStringLiteral : Nat
  Stack : List ParenState
  IgnoreStackForComparison : Bool
  FirstIndent : Nat
  Line : Nat
deriving DecidableEq, Repr

/-- Embedding of `LineState::operator<` (ContinuationIndenter.h, lines 281-300). -/
def LineState.lt (s o : LineState) : Bool :=
  if s.NextToken ≠ o.NextToken then decide (s.NextToken < o.NextToken)
  else if s.Column ≠ o.Column then decide (s.Column < o.Column)
  else if s.LineContainsContinuedForLoopSection ≠ o.LineContainsContinuedForLoopSection then
    s.LineContainsContinuedForLoopSection
  else if s.ParenLevel ≠ o.ParenLevel then decide (s.ParenLevel < o.ParenLevel)
  else if s.StartOfLineLevel ≠ o.StartOfLineLevel then decide (s.StartOfLineLevel < o.StartOfLineLevel)
  else if s.LowestLevelOnLine ≠ o.LowestLevelOnLine then decide (s.LowestLevelOnLine < o.LowestLevelOnLine)
  else if s.StartOfStringLiteral ≠ o.StartOfStringLiteral then
    decide (s.StartOfStringLiteral < o.StartOfStringLiteral)
  else if s.IgnoreStackForComparison || o.IgnoreStackForComparison then false
  else vecLt ParenState.lt s.Stack o.Stack

/-- Encoding of a C++ `bool` field that an operator< chain compares via
`return Field;` on inequality: `true` sorts first, so `true ↦ 0`, `false ↦ 1`. -/
def encTF (b : Bool) : Nat := if b then 0 else 1

/-- Encoding of a C++ `bool` field that an operator< chain compares via
`return Field < Other.Field;` on inequality: `false` sorts first, so
`false ↦ 0`, `true ↦ 1`. -/
def encFT (b : Bool) : Nat := if b then 1 else 0

/-- Lexicographic strict comparison of a list of already-paired components: the first
unequal pair decides by `<` on `Nat`. -/
def chainLt : List (Nat × Nat) → Bool
  | [] => false
  | (a, b) :: rest => if a ≠ b then decide (a < b) else chainLt rest

/-- Lexicographic strict comparison of two equally long lists of naturals. -/
def natsLt (xs ys : List Nat) : Bool := chainLt (xs.zip ys)

/-- The comparison key of a `ParenState`: every field that `ParenState.lt` consults, in
the order it consults them, with `bool` fields encoded in their comparison direction.
`NestedNameSpecifierContinuation` does not occur in the body of
`ParenState::operator<`, hence not here. -/
def pKey (s : ParenState) : List Nat :=
  [s.Indent, s.LastSpace, s.FirstLessLess, encTF s.BreakBeforeClosingBrace,
   s.QuestionColumn, encTF s.AvoidBinPacking, encTF s.BreakBeforeParameter,
   encTF s.NoLineBreak, s.ColonPos, s.StartOfFunctionCall, s.StartOfArraySubscripts,
   s.CallContinuation, s.VariablePos, encFT s.ContainsLineBreak,
   encFT s.ContainsUnwrappedBuilder]

/-- The scalar comparison key of a `LineState`: the seven fields that
`LineState.lt` consults before the stack, in the order it consults them. -/
def lKey (s : LineState) : List Nat :=
  [s.NextToken, s.Column, encTF s.LineContainsContinuedForLoopSection, s.ParenLevel,
   s.StartOfLineLevel, s.LowestLevelOnLine, s.StartOfStringLiteral]

/-- Three-way comparison of two naturals. -/
def cmpNat (a b : Nat) : Ordering :=
  if a < b then .lt else if b < a then .gt else .eq

/-- Three-way comparison of two booleans with `true` ordered first. -/
def cmpFlag (a b : Bool) : Ordering :=
  if a = b then .eq else if a then .lt else .gt

/-- Sequential (lexicographic) combination of a list of three-way comparison
outcomes: the first outcome that is not `eq` decides. -/
def seqCmp (l : List Ordering) : Ordering :=
  l.foldr (fun c acc => Ordering.then c acc) .eq

/-- Turn a three-way comparison outcome into a strictly-less verdict, falling through
to `tail` (the verdict of the next comparison stage) on a tie. -/
def cmpIsLt (c : Ordering) (tail : Bool) : Bool :=
  match c with
  | .lt => true
  | .gt => false
  | .eq => tail

/-- The memoization order as the specification words it: compare, in sequence, next
token identity, column, the continued-for-loop flag, current nesting depth,
start-of-line depth, lowest depth on the line, and string-literal-start column; if all
of those tie, the full ParenState stack decides — unless the stack-ignored flag is set
on either state, in which case the states are left incomparable. -/
def LineState.specMemoLt (s o : LineState) : Bool :=
  cmpIsLt
    (seqCmp [cmpNat s.NextToken o.NextToken, cmpNat s.Column o.Column,
      cmpFlag s.LineContainsContinuedForLoopSection o.LineContainsContinuedForLoopSection,
      cmpNat s.ParenLevel o.ParenLevel, cmpNat s.StartOfLineLevel o.StartOfLineLevel,
      cmpNat s.LowestLevelOnLine o.LowestLevelOnLine,
      cmpNat s.StartOfStringLiteral o.StartOfStringLiteral])
    (if s.IgnoreStackForComparison || o.IgnoreStackForComparison then false
     else vecLt ParenState.lt s.Stack o.Stack)

/-- Agreement of two `LineState`s on the seven scalar fields that the memoization
comparison consults before the stack. -/
def LineState.sameMemoFields (s o : LineState) : Prop :=
  s.NextToken = o.NextToken ∧ s.Column = o.Column ∧
  s.LineContainsContinuedForLoopSection = o.LineContainsContinuedForLoopSection ∧
  s.ParenLevel = o.ParenLevel ∧ s.StartOfLineLevel = o.StartOfLineLevel ∧
  s.LowestLevelOnLine = o.LowestLevelOnLine ∧
  s.StartOfStringLiteral = o.StartOfStringLiteral

instance (s o : LineState) : Decidable (LineState.sameMemoFields s o) := by
  unfold LineState.sameMemoFields; infer_instance

/-- A ParenState whose fields are all zero / false (witness material). -/
def p0 : ParenState := ⟨0, 0, 0, false, 0, false, false, false, 0, 0, 0, 0, 0, 0, false, false⟩

/-- `p0` with `NestedNameSpecifierContinuation` changed to 1 — it differs from `p0`
only in the one field `ParenState.lt` never reads. -/
def q0 : ParenState := { p0 with NestedNameSpecifierContinuation := 1 }

/-- A LineState with the stack-ignored flag set and an empty stack. -/
def stA : LineState := ⟨0, 0, false, 0, 0, 0, 0, [], true, 0, 0⟩

/-- A LineState agreeing with `stA` on every compared scalar field, flag clear,
empty stack. -/
def stB : LineState := ⟨0, 0, false, 0, 0, 0, 0, [], false, 0, 0⟩

/-- A LineState agreeing with `stA` on every compared scalar field, flag clear,
one-frame stack. -/
def stC : LineState := ⟨0, 0, false, 0, 0, 0, 0, [p0], false, 0, 0⟩

/-- A LineState used to witness that `FirstIndent` and `Line` are not compared. -/
def stD1 : LineState := ⟨3, 7, true, 2, 1, 1, 0, [p0], false, 4, 11⟩

/-- `stD1` with different `FirstIndent` and `Line` (and nothing else changed). -/
def stD2 : LineState := { stD1 with FirstIndent := 9, Line := 23 }

/-- `stC` with a strictly longer stack, so `stC` compares less than `stE`. -/
def stE : LineState := { stC with Stack := [p0, p0] }

/-- A token of the Line Builder's input stream.  `plain` covers ordinary
non-structural tokens (identifiers, literals, operators); braces and semicolons are
the structural tokens the model tracks; `ppIf val` is a conditional preprocessor
directive whose condition literal is `val` (so `ppIf 0` is `#if 0`); `ppEndif` is
`#endif`; `ppDirective` is any other preprocessor directive (such as `#define`). -/
inductive Tok where
  | plain (id : Nat)
  | lbrace
  | rbrace
  | semi
  | ppIf (val : Nat)
  | ppEndif
  | ppDirective (id : Nat)
deriving DecidableEq, Repr

/-- Whether a token is a preprocessor-directive token. -/
def Tok.isPPTok : Tok → Bool
  | .ppIf _ => true
  | .ppEndif => true
  | .ppDirective _ => true
  | _ => false

/-- Whether a token is an ordinary (non-structural, non-directive) token. -/
def Tok.isPlain : Tok → Bool
  | .plain _ => true
  | _ => false

mutual

/-- Embedding of the struct `UnwrappedLine` of UnwrappedLineParser.h: the tokens of
one logical line, its indent level, whether it is part of a preprocessor directive,
and whether it must be a declaration. -/
inductive UnwrappedLine where
  | mk (Tokens : List UnwrappedLineNode) (Level : Nat) (InPPDirective : Bool)
      (MustBeDeclaration : Bool) : UnwrappedLine

/-- Embedding of the struct `UnwrappedLineNode` of UnwrappedLineParser.h: a token
pointer (`none` models `NULL`, the value the default constructor stores) plus the
child lines attached to the token. -/
inductive UnwrappedLineNode where
  | mk (Tok : Option Tok) (Children : List UnwrappedLine) : UnwrappedLineNode

end

/-- Field accessor for `UnwrappedLine.Tokens`. -/
def UnwrappedLine.Tokens : UnwrappedLine → List UnwrappedLineNode
  | .mk t _ _ _ => t

/-- Field accessor for `UnwrappedLine.Level`. -/
def UnwrappedLine.Level : UnwrappedLine → Nat
  | .mk _ l _ _ => l

/-- Field accessor for `UnwrappedLine.InPPDirective`. -/
def UnwrappedLine.InPPDirective : UnwrappedLine → Bool
  | .mk _ _ p _ => p

/-- Field accessor for `UnwrappedLine.MustBeDeclaration`. -/
def UnwrappedLine.MustBeDeclaration : UnwrappedLine → Bool
  | .mk _ _ _ m => m

/-- Embedding of the default constructor `UnwrappedLine::UnwrappedLine()`
(UnwrappedLineParser.h, lines 175-176): `Level(0), InPPDirective(false),
MustBeDeclaration(false)`, with the `Tokens` list default-constructed empty. -/
def UnwrappedLine.mkDefault : UnwrappedLine := .mk [] 0 false false

/-- Embedding of the enum `UnwrappedLineParser::PPBranchKind`
(UnwrappedLineParser.h, lines 156-159). -/
inductive PPBranchKind where
  | PP_Conditional
  | PP_Unreachable
deriving DecidableEq, Repr

/-- Whether a branch kind is `PP_Unreachable`. -/
def PPBranchKind.isUnreachable : PPBranchKind → Bool
  | .PP_Unreachable => true
  | .PP_Conditional => false

/-- Whether the branch-kind stack places us textually inside an always-false
conditional region. -/
def inUnreachable (st : List PPBranchKind) : Bool :=
  st.any PPBranchKind.isUnreachable

/-- Modelled from the spec: the branch kind `UnwrappedLineParser::pushPPConditional`
pushes (the implementation of UnwrappedLineParser.cpp is not part of the snapshot;
only the enum and its comment are).  Per the enum comment, `PP_Unreachable` is pushed
for `#if 0` or for a conditional preprocessor block inside `#if 0`; any other
conditional block gets `PP_Conditional`. -/
def pushPPConditionalKind (stack : List PPBranchKind) (condIsZero : Bool) : PPBranchKind :=
  if condIsZero || inUnreachable stack then .PP_Unreachable else .PP_Conditional

/-- A logical line holding exactly one preprocessor-directive token. -/
def directiveLine (t : Tok) : UnwrappedLine :=
  .mk [.mk (some t) []] 0 true false

/-- A logical line holding the given statement tokens at the given level. -/
def stmtLine (ts : List Tok) (lvl : Nat) : UnwrappedLine :=
  .mk (ts.map fun t => .mk (some t) []) lvl false false

/-- Modelled from the spec: the state of the Line Builder
(`UnwrappedLineParser`, whose .cpp implementation is not part of the snapshot):
the in-progress line's tokens, the emitted lines, the queue of deferred
preprocessor-directive lines (`PreprocessorDirectives`), the brace nesting depth,
the branch-kind stack (`PPStack`), the trace of kinds pushed on that stack, the
opaque content retained inside unreachable regions, and the structural-error flag
(`StructuralError`). -/
structure ParserState where
  current : List Tok
  lines : List UnwrappedLine
  ppQueue : List UnwrappedLine
  depth : Nat
  ppStack : List PPBranchKind
  pushes : List PPBranchKind
  retained : List Tok
  err : Bool

/-- The Line Builder's starting state. -/
def initPS : ParserState := ⟨[], [], [], 0, [], [], [], false⟩

/-- Emit a preprocessor-directive line: buffered in the deferred queue while a
logical line is in progress, emitted directly otherwise. -/
def emitDirective (st : ParserState) (t : Tok) : ParserState :=
  if st.current.isEmpty then { st with lines := st.lines ++ [directiveLine t] }
  else { st with ppQueue := st.ppQueue ++ [directiveLine t] }

/-- Finish the in-progress logical line (if any): emit it, then flush the deferred
preprocessor-directive lines right after it. -/
def finishLine (st : ParserState) : ParserState :=
  if st.current.isEmpty then st
  else { st with lines := st.lines ++ [stmtLine st.current st.depth] ++ st.ppQueue,
                 ppQueue := [], current := [] }

/-- Modelled from the spec: one step of the Line Builder on one token (the body of
`UnwrappedLineParser::parse` and its helpers is not part of the snapshot).  Inside an
unreachable conditional region, content is retained opaquely and excluded from
structural validation, while nested conditional directives still push on the
branch-kind stack; outside, conditional directives push their branch kind, directive
lines are routed through the deferred queue, braces open and close levels (a stray
closing brace or an unbalanced open brace raises the structural-error flag), and a
semicolon completes the in-progress logical line. -/
def parseStep (st : ParserState) (t : Tok) : ParserState :=
  match t with
  | .plain id =>
      if inUnreachable st.ppStack then { st with retained := st.retained ++ [.plain id] }
      else { st with current := st.current ++ [.plain id] }
  | .lbrace =>
      if inUnreachable st.ppStack then { st with retained := st.retained ++ [.lbrace] }
      else
        let st1 := finishLine { st with current := st.current ++ [.lbrace] }
        { st1 with depth := st1.depth + 1 }
  | .rbrace =>
      if inUnreachable st.ppStack then { st with retained := st.retained ++ [.rbrace] }
      else if st.depth = 0 then
        let st1 := finishLine st
        { st1 with err := true, lines := st1.lines ++ [stmtLine [.rbrace] 0] }
      else
        let st1 := finishLine st
        { st1 with depth := st1.depth - 1,
                   lines := st1.lines ++ [stmtLine [.rbrace] (st1.depth - 1)] }
  | .semi =>
      if inUnreachable st.ppStack then { st with retained := st.retained ++ [.semi] }
      else finishLine { st with current := st.current ++ [.semi] }
  | .ppIf v =>
      let k := pushPPConditionalKind st.ppStack (v == 0)
      if inUnreachable st.ppStack then
        { st with ppStack := k :: st.ppStack, pushes := st.pushes ++ [k],
                  retained := st.retained ++ [.ppIf v] }
      else
        emitDirective { st with ppStack := k :: st.ppStack, pushes := st.pushes ++ [k] }
          (.ppIf v)
  | .ppEndif =>
      if inUnreachable st.ppStack then
        if inUnreachable st.ppStack.tail then
          { st with ppStack := st.ppStack.tail, retained := st.retained ++ [.ppEndif] }
        else { st with ppStack := st.ppStack.tail }
      else emitDirective { st with ppStack := st.ppStack.tail } .ppEndif
  | .ppDirective id =>
      if inUnreachable st.ppStack then { st with retained := st.retained ++ [.ppDirective id] }
      else emitDirective st (.ppDirective id)

/-- Modelled from the spec: `UnwrappedLineParser::parse` — fold the step function
over the token stream, finish any in-progress line, and report the emitted logical
lines together with the structural-error result (raised during parsing or by braces
left unbalanced at end of input). -/
def parseTokens (ts : List Tok) : List UnwrappedLine × Bool :=
  let st := finishLine (ts.foldl parseStep initPS)
  (st.lines, st.err || decide (st.depth ≠ 0))

/-- One step of the specification's independent structural-error account: it tracks
only the count of open unreachable conditional frames, the visible brace depth, and
whether a stray closing brace has been seen; tokens inside an unreachable region are
excluded from validation. -/
def specErrStep (s : Nat × Nat × Bool) (t : Tok) : Nat × Nat × Bool :=
  match t with
  | .ppIf v => if s.1 ≠ 0 ∨ v = 0 then (s.1 + 1, s.2.1, s.2.2) else s
  | .ppEndif => (s.1 - 1, s.2.1, s.2.2)
  | .lbrace => if s.1 ≠ 0 then s else (s.1, s.2.1 + 1, s.2.2)
  | .rbrace =>
      if s.1 ≠ 0 then s else if s.2.1 = 0 then (s.1, s.2.1, true) else (s.1, s.2.1 - 1, s.2.2)
  | .plain _ => s
  | .semi => s
  | .ppDirective _ => s

/-- The specification's structural-error verdict on a token stream: a stray closing
brace outside unreachable regions, or a brace left open at end of input. -/
def specStructuralError (ts : List Tok) : Bool :=
  let r := ts.foldl specErrStep (0, 0, false)
  r.2.2 || decide (r.2.1 ≠ 0)

/-- Penalty for a line whose content ends at column `col` under column limit
`limit`, at `ep` per excess column. -/
def overflowPenalty (col limit ep : Nat) : Nat := ep * (col - limit)

/-- Accumulated extra penalty over the lines a broken protruding token produces: each
line except the last costs one line break plus its own column-limit violation; the
last line contributes nothing here. -/
def brokenLinesPenalty (bp ep limit : Nat) : List Nat → Nat
  | [] => 0
  | [_] => 0
  | w :: rest => bp + overflowPenalty w limit ep + brokenLinesPenalty bp ep limit rest

/-- Modelled from the spec: `ContinuationIndenter::breakProtrudingToken` (only its
declaration and contract comment are in the snapshot).  If the current token does not
stick out over the column limit, or its kind does not support splitting, no break is
made and 0 is returned; otherwise the token is split into lines ending at the given
columns and the extra penalty covers the added breaks and the column-limit violations
of every resulting line except the last. -/
def breakProtrudingToken (splittable : Bool) (endColumn limit bp ep : Nat)
    (segments : List Nat) : Nat :=
  if endColumn ≤ limit then 0
  else if !splittable then 0
  else brokenLinesPenalty bp ep limit segments

/-- Column reached after walking to the literal's last line: each subsequent line
replaces the tracked column with its own end column. -/
def lastLineColumn (cur : Nat) : List Nat → Nat
  | [] => cur
  | w :: ws => lastLineColumn w ws

/-- Modelled from the spec: `ContinuationIndenter::addMultilineStringLiteral` (only
its declaration and contract comment are in the snapshot).  Given the end columns of
the literal's lines (the first relative to the current column), it returns the extra
penalty — charged once, for the first line only — and the new tracked column, which
switches to the literal's last line; the interior lines are not modified. -/
def addMultilineStringLiteral (lineEnds : List Nat) (col limit ep : Nat) : Nat × Nat :=
  match lineEnds with
  | [] => (0, col)
  | first :: rest => (overflowPenalty (col + first) limit ep, lastLineColumn (col + first) rest)

/-- The whole Line Builder run on a token stream, before finalization. -/
def parseRun (ts : List Tok) : ParserState := ts.foldl parseStep initPS

/-- Number of unreachable frames on the branch-kind stack. -/
def countU (l : List PPBranchKind) : Nat := l.countP PPBranchKind.isUnreachable

/-- Well-formedness of the branch-kind stack: above any unreachable frame every frame
is unreachable (pushing inside an unreachable region always pushes unreachable). -/
def shaped : List PPBranchKind → Bool
  | [] => true
  | .PP_Unreachable :: r => shaped r
  | .PP_Conditional :: r => !inUnreachable r

/-- Correspondence between a Line Builder state and the specification's
structural-error account (unreachable-frame count, visible brace depth, error flag). -/
def errAbs (st : ParserState) (s : Nat × Nat × Bool) : Prop :=
  countU st.ppStack = s.1 ∧ shaped st.ppStack = true ∧ st.depth = s.2.1 ∧ st.err = s.2.2

theorem natsLt_nil_left (ys : List Nat) : natsLt [] ys = false := by
  cases ys <;> rfl

theorem natsLt_nil_right (xs : List Nat) : natsLt xs [] = false := by
  cases xs <;> rfl

theorem natsLt_cons (x y : Nat) (xs ys : List Nat) :
    natsLt (x :: xs) (y :: ys) = if x ≠ y then decide (x < y) else natsLt xs ys := rfl

theorem natsLt_irrefl (xs : List Nat) : natsLt xs xs = false := by
  induction xs with
  | nil => rfl
  | cons x xs ih => rw [natsLt_cons, if_neg (by simp)]; exact ih

theorem natsLt_asymm : ∀ xs ys : List Nat, natsLt xs ys = true → natsLt ys xs = false := by
  intro xs
  induction xs with
  | nil => intro ys h; rw [natsLt_nil_left] at h; cases h
  | cons x xs ih =>
      intro ys h
      cases ys with
      | nil => rw [natsLt_nil_right] at h; cases h
      | cons y ys =>
          rw [natsLt_cons] at h ⊢
          by_cases hxy : x = y
          · subst hxy
            rw [if_neg (by simp)] at h ⊢
            exact ih ys h
          · rw [if_pos hxy] at h
            have hx : x < y := of_decide_eq_true h
            rw [if_pos (Ne.symm hxy), decide_eq_false_iff_not]
            omega

theorem natsLt_trans :
    ∀ xs ys zs : List Nat, natsLt xs ys = true → natsLt ys zs = true → natsLt xs zs = true := by
  intro xs
  induction xs with
  | nil => intro ys zs h1 _; rw [natsLt_nil_left] at h1; cases h1
  | cons x xs ih =>
      intro ys zs h1 h2
      cases ys with
      | nil => rw [natsLt_nil_right] at h1; cases h1
      | cons y ys =>
          cases zs with
          | nil => rw [natsLt_nil_right] at h2; cases h2
          | cons z zs =>
              rw [natsLt_cons] at h1 h2 ⊢
              by_cases hxy : x = y
              · subst hxy
                rw [if_neg (by simp)] at h1
                by_cases hyz : x = z
                · subst hyz
                  rw [if_neg (by simp)] at h2
                  rw [if_neg (by simp)]
                  exact ih ys zs h1 h2
                · rw [if_pos hyz] at h2
                  rw [if_pos hyz]
                  exact h2
              · rw [if_pos hxy] at h1
                have hx : x < y := of_decide_eq_true h1
                by_cases hyz : y = z
                · subst hyz
                  rw [if_pos hxy]
                  exact h1
                · rw [if_pos hyz] at h2
                  have hy : y < z := of_decide_eq_true h2
                  have hxz : x ≠ z := by omega
                  rw [if_pos hxz]
                  exact decide_eq_true (by omega)

theorem natsLt_incomp_eq :
    ∀ xs ys : List Nat, xs.length = ys.length →
      natsLt xs ys = false → natsLt ys xs = false → xs = ys := by
  intro xs
  induction xs with
  | nil =>
      intro ys hl _ _
      cases ys with
      | nil => rfl
      | cons y ys => simp at hl
  | cons x xs ih =>
      intro ys hl h1 h2
      cases ys with
      | nil => simp at hl
      | cons y ys =>
          by_cases hxy : x = y
          · subst hxy
            rw [natsLt_cons, if_neg (by simp)] at h1 h2
            rw [ih ys (by simpa using hl) h1 h2]
          · exfalso
            rw [natsLt_cons, if_pos hxy, decide_eq_false_iff_not] at h1
            rw [natsLt_cons, if_pos (Ne.symm hxy), decide_eq_false_iff_not] at h2
            omega

theorem encTF_inj (a b : Bool) : encTF a = encTF b ↔ a = b := by
  cases a <;> cases b <;> simp [encTF]

theorem encFT_inj (a b : Bool) : encFT a = encFT b ↔ a = b := by
  cases a <;> cases b <;> simp [encFT]

theorem encTF_step (a b : Bool) (r : Bool) :
    (if encTF a ≠ encTF b then decide (encTF a < encTF b) else r) =
      (if a ≠ b then a else r) := by
  cases a <;> cases b <;> simp [encTF]

theorem encFT_step (a b : Bool) (r : Bool) :
    (if encFT a ≠ encFT b then decide (encFT a < encFT b) else r) =
      (if a ≠ b then boolLt a b else r) := by
  cases a <;> cases b <;> simp [encFT, boolLt]

theorem pLt_eq_natsLt (s o : ParenState) : ParenState.lt s o = natsLt (pKey s) (pKey o) := by
  simp only [ParenState.lt, natsLt, pKey, List.zip_cons_cons, List.zip_nil_right,
    chainLt, encTF_step, encFT_step]

theorem pLt_irrefl (p : ParenState) : ParenState.lt p p = false := by
  rw [pLt_eq_natsLt]; exact natsLt_irrefl _

theorem pLt_asymm (a b : ParenState) (h : ParenState.lt a b = true) :
    ParenState.lt b a = false := by
  rw [pLt_eq_natsLt] at h ⊢; exact natsLt_asymm _ _ h

theorem pLt_trans (a b c : ParenState) (h1 : ParenState.lt a b = true)
    (h2 : ParenState.lt b c = true) : ParenState.lt a c = true := by
  rw [pLt_eq_natsLt] at h1 h2 ⊢; exact natsLt_trans _ _ _ h1 h2

theorem pIncomp_key (a b : ParenState) (h1 : ParenState.lt a b = false)
    (h2 : ParenState.lt b a = false) : pKey a = pKey b := by
  rw [pLt_eq_natsLt] at h1 h2; exact natsLt_incomp_eq _ _ rfl h1 h2

theorem pKeyEq_lt_false (a b : ParenState) (h : pKey a = pKey b) :
    ParenState.lt a b = false := by
  rw [pLt_eq_natsLt, h]; exact natsLt_irrefl _

theorem pStabL (a b c : ParenState) (h1 : ParenState.lt a b = false)
    (h2 : ParenState.lt b a = false) (h3 : ParenState.lt b c = true) :
    ParenState.lt a c = true := by
  have hk := pIncomp_key a b h1 h2
  rw [pLt_eq_natsLt, hk]; rw [pLt_eq_natsLt] at h3; exact h3

theorem pStabR (a b c : ParenState) (h1 : ParenState.lt a b = true)
    (h2 : ParenState.lt b c = false) (h3 : ParenState.lt c b = false) :
    ParenState.lt a c = true := by
  have hk := pIncomp_key b c h2 h3
  rw [pLt_eq_natsLt, ← hk]; rw [pLt_eq_natsLt] at h1; exact h1

theorem vecLt_nil_right {α} (lt : α → α → Bool) (xs : List α) : vecLt lt xs [] = false := by
  cases xs <;> rfl

theorem vecLt_nil_cons {α} (lt : α → α → Bool) (b : α) (bs : List α) :
    vecLt lt [] (b :: bs) = true := rfl

theorem vecLt_cons {α} (lt : α → α → Bool) (a b : α) (as bs : List α) :
    vecLt lt (a :: as) (b :: bs) =
      if lt a b then true else if lt b a then false else vecLt lt as bs := rfl

theorem vecLt_irrefl {α} (lt : α → α → Bool) (h : ∀ a, lt a a = false) :
    ∀ xs, vecLt lt xs xs = false := by
  intro xs
  induction xs with
  | nil => rfl
  | cons a as ih => rw [vecLt_cons, h a]; simpa using ih

theorem vecLt_asymm {α} (lt : α → α → Bool) (h : ∀ a b, lt a b = true → lt b a = false) :
    ∀ xs ys, vecLt lt xs ys = true → vecLt lt ys xs = false := by
  intro xs
  induction xs with
  | nil =>
      intro ys hxy
      cases ys with
      | nil => cases hxy
      | cons b bs => exact vecLt_nil_right lt (b :: bs)
  | cons a as ih =>
      intro ys hxy
      cases ys with
      | nil => rw [vecLt_nil_right] at hxy; cases hxy
      | cons b bs =>
          rw [vecLt_cons] at hxy
          rw [vecLt_cons]
          by_cases hab : lt a b = true
          · simp [hab, h a b hab]
          · have hab' : lt a b = false := by
              cases hlt : lt a b
              · rfl
              · exact absurd hlt hab
            rw [hab'] at hxy
            simp only [Bool.false_eq_true, if_false] at hxy
            by_cases hba : lt b a = true
            · rw [hba] at hxy; simp at hxy
            · have hba' : lt b a = false := by
                cases hlt : lt b a
                · rfl
                · exact absurd hlt hba
              rw [hba'] at hxy
              simp only [Bool.false_eq_true, if_false] at hxy
              simp [hba', hab', ih bs hxy]

theorem vecLt_trans {α} (lt : α → α → Bool)
    (htrans : ∀ a b c, lt a b = true → lt b c = true → lt a c = true)
    (hstabL : ∀ a b c, lt a b = false → lt b a = false → lt b c = true → lt a c = true)
    (hstabR : ∀ a b c, lt a b = true → lt b c = false → lt c b = false → lt a c = true) :
    ∀ xs ys zs, vecLt lt xs ys = true → vecLt lt ys zs = true → vecLt lt xs zs = true := by
  intro xs
  induction xs with
  | nil =>
      intro ys zs h1 h2
      cases ys with
      | nil => cases h1
      | cons b bs =>
          cases zs with
          | nil => rw [vecLt_nil_right] at h2; cases h2
          | cons c cs => exact vecLt_nil_cons lt c cs
  | cons a as ih =>
      intro ys zs h1 h2
      cases ys with
      | nil => rw [vecLt_nil_right] at h1; cases h1
      | cons b bs =>
          cases zs with
          | nil => rw [vecLt_nil_right] at h2; cases h2
          | cons c cs =>
              rw [vecLt_cons] at h1 h2
              rw [vecLt_cons]
              by_cases hab : lt a b = true
              · by_cases hbc : lt b c = true
                · simp [htrans a b c hab hbc]
                · have hbc' : lt b c = false := by
                    cases hlt : lt b c
                    · rfl
                    · exact absurd hlt hbc
                  rw [hbc'] at h2
                  simp only [Bool.false_eq_true, if_false] at h2
                  by_cases hcb : lt c b = true
                  · rw [hcb] at h2; simp at h2
                  · have hcb' : lt c b = false := by
                      cases hlt : lt c b
                      · rfl
                      · exact absurd hlt hcb
                    simp [hstabR a b c hab hbc' hcb']
              · have hab' : lt a b = false := by
                  cases hlt : lt a b
                  · rfl
                  · exact absurd hlt hab
                rw [hab'] at h1
                simp only [Bool.false_eq_true, if_false] at h1
                by_cases hba : lt b a = true
                · rw [hba] at h1; simp at h1
                · have hba' : lt b a = false := by
                    cases hlt : lt b a
                    · rfl
                    · exact absurd hlt hba
                  rw [hba'] at h1
                  simp only [Bool.false_eq_true, if_false] at h1
                  by_cases hbc : lt b c = true
                  · simp [hstabL a b c hab' hba' hbc]
                  · have hbc' : lt b c = false := by
                      cases hlt : lt b c
                      · rfl
                      · exact absurd hlt hbc
                    rw [hbc'] at h2
                    simp only [Bool.false_eq_true, if_false] at h2
                    by_cases hcb : lt c b = true
                    · rw [hcb] at h2; simp at h2
                    · have hcb' : lt c b = false := by
                        cases hlt : lt c b
                        · rfl
                        · exact absurd hlt hcb
                      rw [hcb'] at h2
                      simp only [Bool.false_eq_true, if_false] at h2
                      have hac : lt a c = false := by
                        cases hlt : lt a c
                        · rfl
                        · exact absurd (hstabR a c b hlt hcb' hbc') (by simp [hab'])
                      have hca : lt c a = false := by
                        cases hlt : lt c a
                        · rfl
                        · exact absurd (hstabR c a b hlt hab' hba') (by simp [hcb'])
                      simp [hac, hca, ih bs cs h1 h2]

theorem vecLt_incomp_map {α} (lt : α → α → Bool) (f : α → List Nat)
    (h : ∀ a b, lt a b = false → lt b a = false → f a = f b) :
    ∀ xs ys, vecLt lt xs ys = false → vecLt lt ys xs = false → xs.map f = ys.map f := by
  intro xs
  induction xs with
  | nil =>
      intro ys h1 _
      cases ys with
      | nil => rfl
      | cons b bs => rw [vecLt_nil_cons] at h1; cases h1
  | cons a as ih =>
      intro ys h1 h2
      cases ys with
      | nil => rw [vecLt_nil_cons] at h2; cases h2
      | cons b bs =>
          rw [vecLt_cons] at h1 h2
          by_cases hab : lt a b = true
          · rw [hab] at h1; simp at h1
          · have hab' : lt a b = false := by
              cases hlt : lt a b
              · rfl
              · exact absurd hlt hab
            by_cases hba : lt b a = true
            · rw [hba] at h2; simp at h2
            · have hba' : lt b a = false := by
                cases hlt : lt b a
                · rfl
                · exact absurd hlt hba
              rw [hab', hba'] at h1 h2
              simp only [Bool.false_eq_true, if_false] at h1 h2
              simp only [List.map_cons, List.cons.injEq]
              exact ⟨h a b hab' hba', ih bs h1 h2⟩

theorem vecLt_mapEq_false {α} (lt : α → α → Bool) (f : α → List Nat)
    (h : ∀ a b, f a = f b → lt a b = false) :
    ∀ xs ys, xs.map f = ys.map f → vecLt lt xs ys = false := by
  intro xs
  induction xs with
  | nil =>
      intro ys hm
      cases ys with
      | nil => rfl
      | cons b bs => simp at hm
  | cons a as ih =>
      intro ys hm
      cases ys with
      | nil => simp at hm
      | cons b bs =>
          simp only [List.map_cons, List.cons.injEq] at hm
          obtain ⟨hf, hm2⟩ := hm
          rw [vecLt_cons, h a b hf, h b a hf.symm]
          simpa using ih bs hm2

theorem chain_or_base (g v : Bool) :
    (if g then false else v) =
      (natsLt [] [] || (decide (([] : List Nat) = []) && (!g && v))) := by
  cases g <;> simp [natsLt, chainLt]

theorem chain_or_eq (x y : Nat) (l1 l2 : List Nat) (r : Bool) :
    (if x ≠ y then decide (x < y) else (natsLt l1 l2 || (decide (l1 = l2) && r))) =
      (natsLt (x :: l1) (y :: l2) || (decide (x :: l1 = y :: l2) && r)) := by
  by_cases h : x = y
  · subst h
    rw [if_neg (by simp), natsLt_cons, if_neg (by simp)]
    have : decide (x :: l1 = x :: l2) = decide (l1 = l2) := by simp
    rw [this]
  · have hne : (x :: l1 : List Nat) ≠ y :: l2 := by simp [h]
    rw [if_pos h, natsLt_cons, if_pos h, decide_eq_false hne]
    simp

theorem chain_or_eq_flag (x y : Bool) (l1 l2 : List Nat) (r : Bool) :
    (if x ≠ y then x else (natsLt l1 l2 || (decide (l1 = l2) && r))) =
      (natsLt (encTF x :: l1) (encTF y :: l2) || (decide (encTF x :: l1 = encTF y :: l2) && r)) := by
  by_cases h : x = y
  · subst h
    rw [if_neg (by simp), natsLt_cons, if_neg (by simp)]
    have : decide (encTF x :: l1 = encTF x :: l2) = decide (l1 = l2) := by simp
    rw [this]
  · cases x <;> cases y <;> simp_all [encTF, natsLt_cons]

theorem lLt_char (s o : LineState) :
    LineState.lt s o =
      (natsLt (lKey s) (lKey o) ||
        (decide (lKey s = lKey o) &&
          (!(s.IgnoreStackForComparison || o.IgnoreStackForComparison) &&
            vecLt ParenState.lt s.Stack o.Stack))) := by
  obtain ⟨sC, sNT, sFL, sPL, sSOL, sLOW, sSSL, sSTK, sIG, sFI, sLN⟩ := s
  obtain ⟨oC, oNT, oFL, oPL, oSOL, oLOW, oSSL, oSTK, oIG, oFI, oLN⟩ := o
  simp only [LineState.lt, lKey]
  rw [chain_or_base, chain_or_eq, chain_or_eq, chain_or_eq, chain_or_eq,
    chain_or_eq_flag, chain_or_eq, chain_or_eq]

theorem cmpIsLt_seq (c : Ordering) (rest : List Ordering) (v : Bool) :
    cmpIsLt (seqCmp (c :: rest)) v = cmpIsLt c (cmpIsLt (seqCmp rest) v) := by
  cases c <;> rfl

theorem cmpIsLt_seq_nil (v : Bool) : cmpIsLt (seqCmp []) v = v := rfl

theorem cmpNat_match (a b : Nat) (v : Bool) :
    cmpIsLt (cmpNat a b) v = if a ≠ b then decide (a < b) else v := by
  by_cases h : a = b
  · subst h; simp [cmpNat, cmpIsLt]
  · by_cases hlt : a < b
    · simp [cmpNat, cmpIsLt, hlt, h]
    · have hgt : b < a := by omega
      simp [cmpNat, cmpIsLt, hlt, hgt, h]

theorem cmpFlag_match (a b : Bool) (v : Bool) :
    cmpIsLt (cmpFlag a b) v = if a ≠ b then a else v := by
  cases a <;> cases b <;> simp [cmpFlag, cmpIsLt]

theorem lt_eq_specMemoLt (s o : LineState) : LineState.lt s o = LineState.specMemoLt s o := by
  obtain ⟨sC, sNT, sFL, sPL, sSOL, sLOW, sSSL, sSTK, sIG, sFI, sLN⟩ := s
  obtain ⟨oC, oNT, oFL, oPL, oSOL, oLOW, oSSL, oSTK, oIG, oFI, oLN⟩ := o
  simp only [LineState.lt, LineState.specMemoLt]
  rw [cmpIsLt_seq, cmpIsLt_seq, cmpIsLt_seq, cmpIsLt_seq, cmpIsLt_seq, cmpIsLt_seq,
    cmpIsLt_seq, cmpIsLt_seq_nil]
  rw [cmpNat_match, cmpNat_match, cmpFlag_match, cmpNat_match, cmpNat_match,
    cmpNat_match, cmpNat_match]

theorem sameMemoFields_lKey (s o : LineState) (h : LineState.sameMemoFields s o) :
    lKey s = lKey o := by
  obtain ⟨h1, h2, h3, h4, h5, h6, h7⟩ := h
  simp [lKey, h1, h2, h3, h4, h5, h6, h7]

theorem lLt_true_elim (s o : LineState) (h : LineState.lt s o = true) :
    natsLt (lKey s) (lKey o) = true ∨
      (lKey s = lKey o ∧
        (s.IgnoreStackForComparison || o.IgnoreStackForComparison) = false ∧
        vecLt ParenState.lt s.Stack o.Stack = true) := by
  rw [lLt_char] at h
  cases hn : natsLt (lKey s) (lKey o)
  · right
    rw [hn] at h
    simp only [Bool.false_or, Bool.and_eq_true, decide_eq_true_eq] at h
    obtain ⟨hk, hig, hv⟩ := h
    exact ⟨hk, by simpa using hig, hv⟩
  · left; rfl

theorem lLt_false_elim (s o : LineState) (h : LineState.lt s o = false) :
    natsLt (lKey s) (lKey o) = false ∧
      (lKey s = lKey o →
        (s.IgnoreStackForComparison || o.IgnoreStackForComparison) = false →
        vecLt ParenState.lt s.Stack o.Stack = false) := by
  rw [lLt_char] at h
  constructor
  · cases hn : natsLt (lKey s) (lKey o)
    · rfl
    · rw [hn] at h; simp at h
  · intro hk hig
    rw [hk, hig, natsLt_irrefl] at h
    simpa using h

theorem lLt_intro_key (s o : LineState) (h : natsLt (lKey s) (lKey o) = true) :
    LineState.lt s o = true := by
  rw [lLt_char, h]; rfl

theorem lLt_intro_stack (s o : LineState) (hk : lKey s = lKey o)
    (hig : (s.IgnoreStackForComparison || o.IgnoreStackForComparison) = false)
    (hv : vecLt ParenState.lt s.Stack o.Stack = true) : LineState.lt s o = true := by
  rw [lLt_char, hk, natsLt_irrefl, hig, hv]
  simp

/-- C1: `LineState::operator<` compares exactly, in sequence, next token identity,
column, the continued-for-loop flag, the current, start-of-line and lowest nesting
depths, the string-literal-start column, and finally the full ParenState stack — it
coincides with the specification-side order `LineState.specMemoLt` written in exactly
that sequence — and whenever `IgnoreStackForComparison` is set on either of two
states that agree on all the earlier fields, the two are mutually incomparable
regardless of their stacks. -/
theorem C1_memo_order_matches_spec (s o : LineState) :
    LineState.lt s o = LineState.specMemoLt s o ∧
    ((s.IgnoreStackForComparison || o.IgnoreStackForComparison) = true →
      LineState.sameMemoFields s o →
      LineState.lt s o = false ∧ LineState.lt o s = false) := by
  refine ⟨lt_eq_specMemoLt s o, fun hig hsame => ?_⟩
  have hk := sameMemoFields_lKey s o hsame
  constructor
  · rw [lLt_char, hk, natsLt_irrefl, hig]
    simp
  · have hig2 : (o.IgnoreStackForComparison || s.IgnoreStackForComparison) = true := by
      rw [Bool.or_comm]; exact hig
    rw [lLt_char, ← hk, natsLt_irrefl, hig2]
    simp

/-- Witness for C1: concrete states agreeing on all compared scalar fields, the flag
set on one of them, stacks differing — equal under the spec order and mutually
incomparable. -/
theorem C1_memo_order_matches_spec_witness :
    LineState.lt stA stC = LineState.specMemoLt stA stC ∧
    (LineState.lt stA stC = false ∧ LineState.lt stC stA = false) := by
  have h := C1_memo_order_matches_spec stA stC
  exact ⟨h.1, h.2 (by decide) (by decide)⟩

/-- C2 counterexample: with mixed `IgnoreStackForComparison` flags the induced
incomparability relation is not transitive — `stB` is incomparable with `stA`, and
`stA` with `stC`, yet `stB` compares strictly less than `stC` — so the comparison is
not the well-defined total (strict weak) order the claim asserts. -/
theorem C2_incomparability_not_transitive :
    LineState.lt stB stA = false ∧ LineState.lt stA stB = false ∧
    LineState.lt stA stC = false ∧ LineState.lt stC stA = false ∧
    LineState.lt stB stC = true := by decide

/-- C2 (amended): `LineState::operator<` is irreflexive, asymmetric and transitive,
and the induced incomparability relation is transitive across states whose
`IgnoreStackForComparison` flags agree (in particular whenever the flag is unset
everywhere); with mixed flag values incomparability is not transitive. -/
theorem C2_strict_order_properties (a b c : LineState) :
    LineState.lt a a = false ∧
    (LineState.lt a b = true → LineState.lt b a = false) ∧
    (LineState.lt a b = true → LineState.lt b c = true → LineState.lt a c = true) ∧
    (a.IgnoreStackForComparison = b.IgnoreStackForComparison →
      b.IgnoreStackForComparison = c.IgnoreStackForComparison →
      LineState.lt a b = false → LineState.lt b a = false →
      LineState.lt b c = false → LineState.lt c b = false →
      LineState.lt a c = false ∧ LineState.lt c a = false) := by
  refine ⟨?_, ?_, ?_, ?_⟩
  · rw [lLt_char, natsLt_irrefl]
    simp [vecLt_irrefl ParenState.lt pLt_irrefl]
  · intro h
    rcases lLt_true_elim a b h with hA | ⟨hk, hig, hv⟩
    · have hn := natsLt_asymm _ _ hA
      have hne : lKey b ≠ lKey a := by
        intro he; rw [he] at hA; rw [natsLt_irrefl] at hA; cases hA
      rw [lLt_char, hn, decide_eq_false hne]
      simp
    · have hig2 : (b.IgnoreStackForComparison || a.IgnoreStackForComparison) = false := by
        rw [Bool.or_comm]; exact hig
      rw [lLt_char, ← hk, natsLt_irrefl, hig2]
      have hvb := vecLt_asymm ParenState.lt pLt_asymm _ _ hv
      simp [hvb]
  · intro h1 h2
    rcases lLt_true_elim a b h1 with hA | ⟨hk1, hig1, hv1⟩ <;>
      rcases lLt_true_elim b c h2 with hB | ⟨hk2, hig2, hv2⟩
    · exact lLt_intro_key a c (natsLt_trans _ _ _ hA hB)
    · exact lLt_intro_key a c (by rw [← hk2]; exact hA)
    · exact lLt_intro_key a c (by rw [hk1]; exact hB)
    · have ha : a.IgnoreStackForComparison = false := by
        cases hx : a.IgnoreStackForComparison
        · rfl
        · rw [hx] at hig1; simp at hig1
      have hc : c.IgnoreStackForComparison = false := by
        cases hx : c.IgnoreStackForComparison
        · rfl
        · rw [hx] at hig2; simp at hig2
      exact lLt_intro_stack a c (hk1.trans hk2) (by rw [ha, hc]; rfl)
        (vecLt_trans ParenState.lt pLt_trans pStabL pStabR _ _ _ hv1 hv2)
  · intro hfab hfbc h1 h2 h3 h4
    have e1 := lLt_false_elim a b h1
    have e2 := lLt_false_elim b a h2
    have e3 := lLt_false_elim b c h3
    have e4 := lLt_false_elim c b h4
    have hk1 : lKey a = lKey b := natsLt_incomp_eq _ _ rfl e1.1 e2.1
    have hk2 : lKey b = lKey c := natsLt_incomp_eq _ _ rfl e3.1 e4.1
    have hkac : lKey a = lKey c := hk1.trans hk2
    cases hfa : a.IgnoreStackForComparison
    · have hfb : b.IgnoreStackForComparison = false := by rw [← hfab]; exact hfa
      have hfc : c.IgnoreStackForComparison = false := by rw [← hfbc]; exact hfb
      have hv1 := e1.2 hk1 (by rw [hfa, hfb]; rfl)
      have hv2 := e2.2 hk1.symm (by rw [hfa, hfb]; rfl)
      have hv3 := e3.2 hk2 (by rw [hfb, hfc]; rfl)
      have hv4 := e4.2 hk2.symm (by rw [hfb, hfc]; rfl)
      have hm1 := vecLt_incomp_map ParenState.lt pKey pIncomp_key _ _ hv1 hv2
      have hm2 := vecLt_incomp_map ParenState.lt pKey pIncomp_key _ _ hv3 hv4
      have hvac := vecLt_mapEq_false ParenState.lt pKey pKeyEq_lt_false _ _ (hm1.trans hm2)
      have hvca := vecLt_mapEq_false ParenState.lt pKey pKeyEq_lt_false _ _ (hm1.trans hm2).symm
      constructor
      · rw [lLt_char, hkac, natsLt_irrefl]
        simp [hvac]
      · rw [lLt_char, ← hkac, natsLt_irrefl]
        simp [hvca]
    · have hfb : b.IgnoreStackForComparison = true := by rw [← hfab]; exact hfa
      have hfc : c.IgnoreStackForComparison = true := by rw [← hfbc]; exact hfb
      constructor
      · rw [lLt_char, hkac, natsLt_irrefl, hfa]
        simp
      · rw [lLt_char, ← hkac, natsLt_irrefl, hfc]
        simp

/-- Witness for C2 (amended): the order properties applied at concrete states — a
strict comparison chain through stacks, and incomparability transitivity among
flag-agreeing states differing only in fields the comparison ignores. -/
theorem C2_strict_order_properties_witness :
    LineState.lt stD1 stD1 = false ∧ LineState.lt stC stB = false ∧
    LineState.lt stB stE = true ∧
    (LineState.lt stD1 stD1 = false ∧ LineState.lt stD1 stD1 = false) := by
  have h1 := C2_strict_order_properties stB stC stE
  have h2 := C2_strict_order_properties stD1 stD2 stD1
  exact ⟨(C2_strict_order_properties stD1 stD1 stD1).1,
    h1.2.1 (by decide),
    h1.2.2.1 (by decide) (by decide),
    h2.2.2.2 rfl rfl (by decide) (by decide) (by decide) (by decide)⟩

/-- C3 counterexample: `p0` and `q0` differ in the stored field
`NestedNameSpecifierContinuation`, yet neither compares strictly less than the other
— `ParenState::operator<` ignores that stored field, so it is not a total ordering
over frame contents. -/
theorem C3_ignored_field_counterexample :
    p0 ≠ q0 ∧ ParenState.lt p0 q0 = false ∧ ParenState.lt q0 p0 = false := by decide

/-- C3 (amended): `ParenState::operator<` totally orders the frames over every stored
field except `NestedNameSpecifierContinuation`, which it ignores: two frames are
mutually incomparable exactly when they agree on all stored fields other than
`NestedNameSpecifierContinuation`. -/
theorem C3_total_order_except_nested_name (p q : ParenState) :
    (ParenState.lt p q = false ∧ ParenState.lt q p = false) ↔
      (p.Indent = q.Indent ∧ p.LastSpace = q.LastSpace ∧
       p.FirstLessLess = q.FirstLessLess ∧
       p.BreakBeforeClosingBrace = q.BreakBeforeClosingBrace ∧
       p.QuestionColumn = q.QuestionColumn ∧ p.AvoidBinPacking = q.AvoidBinPacking ∧
       p.BreakBeforeParameter = q.BreakBeforeParameter ∧ p.NoLineBreak = q.NoLineBreak ∧
       p.ColonPos = q.ColonPos ∧ p.StartOfFunctionCall = q.StartOfFunctionCall ∧
       p.StartOfArraySubscripts = q.StartOfArraySubscripts ∧
       p.CallContinuation = q.CallContinuation ∧ p.VariablePos = q.VariablePos ∧
       p.ContainsLineBreak = q.ContainsLineBreak ∧
       p.ContainsUnwrappedBuilder = q.ContainsUnwrappedBuilder) := by
  constructor
  · intro h
    have hk := pIncomp_key p q h.1 h.2
    simpa [pKey, encTF_inj, encFT_inj] using hk
  · intro h
    obtain ⟨h1, h2, h3, h4, h5, h6, h7, h8, h9, h10, h11, h12, h13, h14, h15⟩ := h
    have hk : pKey p = pKey q := by
      simp [pKey, h1, h2, h3, h4, h5, h6, h7, h8, h9, h10, h11, h12, h13, h14, h15]
    exact ⟨pKeyEq_lt_false p q hk, pKeyEq_lt_false q p hk.symm⟩

/-- Witness for C3 (amended): applied at `p0`, `q0`, which differ only in the ignored
field and are therefore incomparable. -/
theorem C3_total_order_except_nested_name_witness :
    ParenState.lt p0 q0 = false ∧ ParenState.lt q0 p0 = false :=
  (C3_total_order_except_nested_name p0 q0).mpr (by decide)

/-- C9: a default-constructed UnwrappedLine has an empty token sequence, nesting
level 0, and is marked neither as part of a preprocessor directive nor as
must-be-declaration. -/
theorem C9_default_unwrapped_line :
    UnwrappedLine.mkDefault.Tokens = [] ∧ UnwrappedLine.mkDefault.Level = 0 ∧
    UnwrappedLine.mkDefault.InPPDirective = false ∧
    UnwrappedLine.mkDefault.MustBeDeclaration = false :=
  ⟨rfl, rfl, rfl, rfl⟩

/-- C10: the memoization comparison never reads `FirstIndent` or `Line`: two states
agreeing on the seven compared scalar fields and on the stack are mutually
incomparable whatever their `FirstIndent` and `Line` values (and whatever their
`IgnoreStackForComparison` flags). -/
theorem C10_first_indent_line_ignored (s o : LineState)
    (h1 : s.NextToken = o.NextToken) (h2 : s.Column = o.Column)
    (h3 : s.LineContainsContinuedForLoopSection = o.LineContainsContinuedForLoopSection)
    (h4 : s.ParenLevel = o.ParenLevel) (h5 : s.StartOfLineLevel = o.StartOfLineLevel)
    (h6 : s.LowestLevelOnLine = o.LowestLevelOnLine)
    (h7 : s.StartOfStringLiteral = o.StartOfStringLiteral)
    (h8 : s.Stack = o.Stack) :
    LineState.lt s o = false ∧ LineState.lt o s = false := by
  have hk : lKey s = lKey o := by simp [lKey, h1, h2, h3, h4, h5, h6, h7]
  constructor
  · rw [lLt_char, hk, natsLt_irrefl, h8]
    simp [vecLt_irrefl ParenState.lt pLt_irrefl]
  · rw [lLt_char, ← hk, natsLt_irrefl, h8]
    simp [vecLt_irrefl ParenState.lt pLt_irrefl]

/-- Witness for C10: concrete states differing only in `FirstIndent` and `Line` are
deduplicated as equivalent. -/
theorem C10_first_indent_line_ignored_witness :
    LineState.lt stD1 stD2 = false ∧ LineState.lt stD2 stD1 = false :=
  C10_first_indent_line_ignored stD1 stD2 rfl rfl rfl rfl rfl rfl rfl rfl

theorem finishLine_ppStack (st : ParserState) : (finishLine st).ppStack = st.ppStack := by
  unfold finishLine; split <;> rfl

theorem finishLine_depth (st : ParserState) : (finishLine st).depth = st.depth := by
  unfold finishLine; split <;> rfl

theorem finishLine_err (st : ParserState) : (finishLine st).err = st.err := by
  unfold finishLine; split <;> rfl

theorem finishLine_pushes (st : ParserState) : (finishLine st).pushes = st.pushes := by
  unfold finishLine; split <;> rfl

theorem finishLine_retained (st : ParserState) : (finishLine st).retained = st.retained := by
  unfold finishLine; split <;> rfl

theorem emitDirective_ppStack (st : ParserState) (t : Tok) :
    (emitDirective st t).ppStack = st.ppStack := by
  unfold emitDirective; split <;> rfl

theorem emitDirective_depth (st : ParserState) (t : Tok) :
    (emitDirective st t).depth = st.depth := by
  unfold emitDirective; split <;> rfl

theorem emitDirective_err (st : ParserState) (t : Tok) :
    (emitDirective st t).err = st.err := by
  unfold emitDirective; split <;> rfl

theorem emitDirective_current (st : ParserState) (t : Tok) :
    (emitDirective st t).current = st.current := by
  unfold emitDirective; split <;> rfl

theorem inUnreachable_true_iff (l : List PPBranchKind) :
    inUnreachable l = true ↔ countU l ≠ 0 := by
  rw [inUnreachable, countU, List.any_eq_true]
  constructor
  · intro ⟨x, hx, hp⟩ h
    have : 0 < List.countP PPBranchKind.isUnreachable l := List.countP_pos_iff.mpr ⟨x, hx, hp⟩
    omega
  · intro h
    have : 0 < List.countP PPBranchKind.isUnreachable l := by omega
    exact List.countP_pos_iff.mp this

theorem inUnreachable_false_countU (l : List PPBranchKind)
    (h : inUnreachable l = false) : countU l = 0 := by
  by_contra hne
  rw [(inUnreachable_true_iff l).mpr hne] at h
  cases h

theorem inUnreachable_cons_iff (k : PPBranchKind) (r : List PPBranchKind) :
    inUnreachable (k :: r) = (k.isUnreachable || inUnreachable r) := by
  simp [inUnreachable]

theorem shaped_of_not_unreachable (l : List PPBranchKind)
    (h : inUnreachable l = false) : shaped l = true := by
  cases l with
  | nil => rfl
  | cons k r =>
      rw [inUnreachable_cons_iff, Bool.or_eq_false_iff] at h
      cases k with
      | PP_Conditional =>
          show (!inUnreachable r) = true
          rw [h.2]
          rfl
      | PP_Unreachable => cases h.1

theorem shaped_head (l : List PPBranchKind) (hs : shaped l = true)
    (hin : inUnreachable l = true) :
    ∃ r, l = .PP_Unreachable :: r ∧ shaped r = true := by
  cases l with
  | nil => simp [inUnreachable] at hin
  | cons k r =>
      cases k with
      | PP_Conditional =>
          have hr : (!inUnreachable r) = true := hs
          rw [inUnreachable_cons_iff] at hin
          have : inUnreachable r = true := by simpa [PPBranchKind.isUnreachable] using hin
          rw [this] at hr
          cases hr
      | PP_Unreachable => exact ⟨r, rfl, hs⟩

theorem shaped_tail (l : List PPBranchKind) (h : shaped l = true) :
    shaped l.tail = true := by
  cases l with
  | nil => rfl
  | cons k r =>
      cases k with
      | PP_Conditional =>
          have hr : (!inUnreachable r) = true := h
          refine shaped_of_not_unreachable r ?_
          cases hx : inUnreachable r
          · rfl
          · rw [hx] at hr; cases hr
      | PP_Unreachable => exact h

theorem countU_cons_unreachable (r : List PPBranchKind) :
    countU (.PP_Unreachable :: r) = countU r + 1 := by
  simp [countU, List.countP_cons, PPBranchKind.isUnreachable]

theorem countU_cons_conditional (r : List PPBranchKind) :
    countU (.PP_Conditional :: r) = countU r := by
  simp [countU, List.countP_cons, PPBranchKind.isUnreachable]

theorem countU_tail_zero (l : List PPBranchKind) (h : countU l = 0) :
    countU l.tail = 0 := by
  cases l with
  | nil => rfl
  | cons k r =>
      cases k with
      | PP_Conditional => rw [countU_cons_conditional] at h; exact h
      | PP_Unreachable => rw [countU_cons_unreachable] at h; omega

theorem errAbs_step (st : ParserState) (u d : Nat) (e : Bool) (t : Tok)
    (hu : countU st.ppStack = u) (hs : shaped st.ppStack = true)
    (hd : st.depth = d) (he : st.err = e) :
    errAbs (parseStep st t) (specErrStep (u, d, e) t) := by
  cases hin : inUnreachable st.ppStack
  · have hu0 : u = 0 := by rw [← hu]; exact inUnreachable_false_countU _ hin
    subst hu0
    cases t with
    | plain id =>
        simp only [parseStep, hin, Bool.false_eq_true, if_false]
        exact ⟨hu, hs, hd, he⟩
    | lbrace =>
        simp only [parseStep, hin, Bool.false_eq_true, if_false, specErrStep]
        rw [if_neg (show ¬((0 : Nat) ≠ 0) by simp)]
        refine ⟨?_, ?_, ?_, ?_⟩
        · rw [finishLine_ppStack]; exact hu
        · rw [finishLine_ppStack]; exact hs
        · show (finishLine _).depth + 1 = d + 1
          rw [finishLine_depth, hd]
        · rw [finishLine_err]; exact he
    | rbrace =>
        simp only [parseStep, hin, Bool.false_eq_true, if_false, specErrStep]
        rw [if_neg (show ¬((0 : Nat) ≠ 0) by simp)]
        by_cases hdz : st.depth = 0
        · rw [if_pos hdz, if_pos (show d = 0 by omega)]
          refine ⟨?_, ?_, ?_, rfl⟩
          · rw [finishLine_ppStack]; exact hu
          · rw [finishLine_ppStack]; exact hs
          · rw [finishLine_depth]; exact hd
        · rw [if_neg hdz, if_neg (show ¬d = 0 by omega)]
          refine ⟨?_, ?_, ?_, ?_⟩
          · rw [finishLine_ppStack]; exact hu
          · rw [finishLine_ppStack]; exact hs
          · show (finishLine st).depth - 1 = d - 1
            rw [finishLine_depth, hd]
          · rw [finishLine_err]; exact he
    | semi =>
        simp only [parseStep, hin, Bool.false_eq_true, if_false]
        refine ⟨?_, ?_, ?_, ?_⟩
        · rw [finishLine_ppStack]; exact hu
        · rw [finishLine_ppStack]; exact hs
        · rw [finishLine_depth]; exact hd
        · rw [finishLine_err]; exact he
    | ppDirective id =>
        simp only [parseStep, hin, Bool.false_eq_true, if_false]
        refine ⟨?_, ?_, ?_, ?_⟩
        · rw [emitDirective_ppStack]; exact hu
        · rw [emitDirective_ppStack]; exact hs
        · rw [emitDirective_depth]; exact hd
        · rw [emitDirective_err]; exact he
    | ppEndif =>
        simp only [parseStep, hin, Bool.false_eq_true, if_false]
        refine ⟨?_, ?_, ?_, ?_⟩
        · rw [emitDirective_ppStack]
          show countU st.ppStack.tail = 0 - 1
          rw [countU_tail_zero _ hu]
        · rw [emitDirective_ppStack]
          exact shaped_tail _ hs
        · rw [emitDirective_depth]; exact hd
        · rw [emitDirective_err]; exact he
    | ppIf v =>
        simp only [parseStep, hin, Bool.false_eq_true, if_false, specErrStep,
          pushPPConditionalKind, Bool.or_false]
        by_cases hv : v = 0
        · subst hv
          rw [if_pos (show (0 : Nat) ≠ 0 ∨ (0 : Nat) = 0 from Or.inr rfl)]
          refine ⟨?_, ?_, ?_, ?_⟩
          · rw [emitDirective_ppStack]
            show countU (.PP_Unreachable :: st.ppStack) = 0 + 1
            rw [countU_cons_unreachable, hu]
          · rw [emitDirective_ppStack]
            show shaped (.PP_Unreachable :: st.ppStack) = true
            exact hs
          · rw [emitDirective_depth]; exact hd
          · rw [emitDirective_err]; exact he
        · have hbeq : (v == 0) = false := by simp [hv]
          rw [hbeq, if_neg (show ¬((0 : Nat) ≠ 0 ∨ v = 0) by simp [hv])]
          refine ⟨?_, ?_, ?_, ?_⟩
          · rw [emitDirective_ppStack]
            show countU (.PP_Conditional :: st.ppStack) = 0
            rw [countU_cons_conditional]; exact hu
          · rw [emitDirective_ppStack]
            show shaped (.PP_Conditional :: st.ppStack) = true
            show (!inUnreachable st.ppStack) = true
            rw [hin]; rfl
          · rw [emitDirective_depth]; exact hd
          · rw [emitDirective_err]; exact he
  · have hune : u ≠ 0 := by
      rw [← hu]
      exact (inUnreachable_true_iff _).mp hin
    cases t with
    | plain id =>
        simp only [parseStep, hin, if_true]
        exact ⟨hu, hs, hd, he⟩
    | lbrace =>
        simp only [parseStep, hin, if_true, specErrStep]
        rw [if_pos hune]
        exact ⟨hu, hs, hd, he⟩
    | rbrace =>
        simp only [parseStep, hin, if_true, specErrStep]
        rw [if_pos hune]
        exact ⟨hu, hs, hd, he⟩
    | semi =>
        simp only [parseStep, hin, if_true]
        exact ⟨hu, hs, hd, he⟩
    | ppDirective id =>
        simp only [parseStep, hin, if_true]
        exact ⟨hu, hs, hd, he⟩
    | ppEndif =>
        obtain ⟨r, hr, hsr⟩ := shaped_head st.ppStack hs hin
        have htail : st.ppStack.tail = r := by rw [hr]; rfl
        have hcount : countU r = u - 1 := by
          have h2 := hu
          rw [hr, countU_cons_unreachable] at h2
          omega
        simp only [parseStep, hin, if_true]
        cases hinr : inUnreachable st.ppStack.tail
        · rw [if_neg (show ¬(false = true) by simp)]
          exact ⟨by rw [htail]; exact hcount, by rw [htail]; exact hsr, hd, he⟩
        · rw [if_pos (show true = true from rfl)]
          exact ⟨by rw [htail]; exact hcount, by rw [htail]; exact hsr, hd, he⟩
    | ppIf v =>
        simp only [parseStep, hin, if_true, specErrStep, pushPPConditionalKind,
          Bool.or_true]
        rw [if_pos (show u ≠ 0 ∨ v = 0 from Or.inl hune)]
        refine ⟨?_, ?_, hd, he⟩
        · show countU (.PP_Unreachable :: st.ppStack) = u + 1
          rw [countU_cons_unreachable, hu]
        · show shaped (.PP_Unreachable :: st.ppStack) = true
          exact hs

theorem errAbs_fold (ts : List Tok) :
    ∀ st s, errAbs st s →
      errAbs (List.foldl parseStep st ts) (List.foldl specErrStep s ts) := by
  induction ts with
  | nil => intro st s h; exact h
  | cons t ts ih =>
      intro st s h
      refine ih _ _ ?_
      obtain ⟨u, d, e⟩ := s
      exact errAbs_step st u d e t h.1 h.2.1 h.2.2.1 h.2.2.2

/-- C4: the Line Builder's parse is a total function on every token stream —
`parseTokens` is defined by structural recursion, so it always returns a sequence of
logical lines — and its boolean result coincides exactly with the specification's
independent structural-error account `specStructuralError` (stray closing brace
outside unreachable regions, or a brace left open at end of input). -/
theorem C4_parse_never_fatal_error_flag (ts : List Tok) :
    (parseTokens ts).2 = specStructuralError ts := by
  have h := errAbs_fold ts initPS (0, 0, false) ⟨rfl, rfl, rfl, rfl⟩
  obtain ⟨hu, hs, hd, he⟩ := h
  show ((finishLine (List.foldl parseStep initPS ts)).err ||
      decide ((finishLine (List.foldl parseStep initPS ts)).depth ≠ 0)) =
    ((List.foldl specErrStep (0, 0, false) ts).2.2 ||
      decide ((List.foldl specErrStep (0, 0, false) ts).2.1 ≠ 0))
  rw [finishLine_err, finishLine_depth, he, hd]

theorem finishLine_empty (st : ParserState) (h : st.current.isEmpty = true) :
    finishLine st = st := by
  unfold finishLine; rw [if_pos h]

theorem finishLine_nonempty (st : ParserState) (h : st.current.isEmpty = false) :
    finishLine st =
      { st with lines := st.lines ++ [stmtLine st.current st.depth] ++ st.ppQueue,
                ppQueue := [], current := [] } := by
  unfold finishLine; rw [if_neg (by simp [h])]

theorem emitDirective_empty (st : ParserState) (t : Tok) (h : st.current.isEmpty = true) :
    emitDirective st t = { st with lines := st.lines ++ [directiveLine t] } := by
  unfold emitDirective; rw [if_pos h]

theorem emitDirective_nonempty (st : ParserState) (t : Tok) (h : st.current.isEmpty = false) :
    emitDirective st t = { st with ppQueue := st.ppQueue ++ [directiveLine t] } := by
  unfold emitDirective; rw [if_neg (by simp [h])]

theorem append_singleton_isEmpty (l : List Tok) (t : Tok) : (l ++ [t]).isEmpty = false := by
  cases l <;> rfl

theorem foldl_parseStep_unreachable :
    ∀ (g : List Tok) (st : ParserState), inUnreachable st.ppStack = true →
      (∀ t ∈ g, t.isPPTok = false) →
      List.foldl parseStep st g = { st with retained := st.retained ++ g } := by
  intro g
  induction g with
  | nil => intro st _ _; simp
  | cons t g ih =>
      intro st hin hg
      have ht : t.isPPTok = false := hg t (by simp)
      have hstep : parseStep st t = { st with retained := st.retained ++ [t] } := by
        cases t with
        | plain id => simp [parseStep, hin]
        | lbrace => simp [parseStep, hin]
        | rbrace => simp [parseStep, hin]
        | semi => simp [parseStep, hin]
        | ppIf v => simp [Tok.isPPTok] at ht
        | ppEndif => simp [Tok.isPPTok] at ht
        | ppDirective id => simp [Tok.isPPTok] at ht
      rw [List.foldl_cons, hstep,
        ih { st with retained := st.retained ++ [t] } hin (fun x hx => hg x (by simp [hx]))]
      simp

theorem foldl_parseStep_plain :
    ∀ (g : List Tok) (st : ParserState), inUnreachable st.ppStack = false →
      (∀ t ∈ g, t.isPlain = true) →
      List.foldl parseStep st g = { st with current := st.current ++ g } := by
  intro g
  induction g with
  | nil => intro st _ _; simp
  | cons t g ih =>
      intro st hin hg
      have ht : t.isPlain = true := hg t (by simp)
      have hstep : parseStep st t = { st with current := st.current ++ [t] } := by
        cases t with
        | plain id => simp [parseStep, hin]
        | lbrace => simp [Tok.isPlain] at ht
        | rbrace => simp [Tok.isPlain] at ht
        | semi => simp [Tok.isPlain] at ht
        | ppIf v => simp [Tok.isPlain] at ht
        | ppEndif => simp [Tok.isPlain] at ht
        | ppDirective id => simp [Tok.isPlain] at ht
      rw [List.foldl_cons, hstep,
        ih { st with current := st.current ++ [t] } hin (fun x hx => hg x (by simp [hx]))]
      simp

/-- C5: an always-false conditional (`#if 0 … #endif`) is pushed on the branch-kind
stack as `PP_Unreachable`, and so is every conditional preprocessor block nested
inside it, whatever its own condition; the enclosed content — arbitrary garbage
tokens, stray braces included — is retained opaquely and never raises the
structural-error flag. -/
theorem C5_unreachable_branch (g g1 g2 g3 : List Tok) (v : Nat)
    (hg : ∀ t ∈ g, t.isPPTok = false) (h1 : ∀ t ∈ g1, t.isPPTok = false)
    (h2 : ∀ t ∈ g2, t.isPPTok = false) (h3 : ∀ t ∈ g3, t.isPPTok = false) :
    ((parseRun (Tok.ppIf 0 :: (g ++ [Tok.ppEndif]))).pushes = [.PP_Unreachable] ∧
      (parseRun (Tok.ppIf 0 :: (g ++ [Tok.ppEndif]))).retained = g ∧
      (parseTokens (Tok.ppIf 0 :: (g ++ [Tok.ppEndif]))).2 = false) ∧
    ((parseRun (Tok.ppIf 0 ::
        (g1 ++ ([Tok.ppIf v] ++ (g2 ++ ([Tok.ppEndif] ++ (g3 ++ [Tok.ppEndif]))))))).pushes =
          [.PP_Unreachable, .PP_Unreachable] ∧
      (parseRun (Tok.ppIf 0 ::
        (g1 ++ ([Tok.ppIf v] ++ (g2 ++ ([Tok.ppEndif] ++ (g3 ++ [Tok.ppEndif]))))))).retained =
          g1 ++ [Tok.ppIf v] ++ g2 ++ [Tok.ppEndif] ++ g3 ∧
      (parseTokens (Tok.ppIf 0 ::
        (g1 ++ ([Tok.ppIf v] ++ (g2 ++ ([Tok.ppEndif] ++ (g3 ++ [Tok.ppEndif]))))))).2 = false) := by
  have hst1 : parseStep initPS (Tok.ppIf 0) =
      ⟨[], [directiveLine (Tok.ppIf 0)], [], 0, [.PP_Unreachable], [.PP_Unreachable], [], false⟩ :=
    rfl
  have f1 := foldl_parseStep_unreachable g
    ⟨[], [directiveLine (Tok.ppIf 0)], [], 0, [.PP_Unreachable], [.PP_Unreachable], [], false⟩
    rfl hg
  dsimp only at f1
  have ea : parseRun (Tok.ppIf 0 :: (g ++ [Tok.ppEndif])) =
      ⟨[], [directiveLine (Tok.ppIf 0)], [], 0, [], [.PP_Unreachable], g, false⟩ := by
    show List.foldl parseStep initPS (Tok.ppIf 0 :: (g ++ [Tok.ppEndif])) = _
    rw [List.foldl_cons, hst1, List.foldl_append, f1, List.foldl_cons, List.foldl_nil]
    simp [parseStep, inUnreachable, PPBranchKind.isUnreachable]
  have f2 := foldl_parseStep_unreachable g1
    ⟨[], [directiveLine (Tok.ppIf 0)], [], 0, [.PP_Unreachable], [.PP_Unreachable], [], false⟩
    rfl h1
  dsimp only at f2
  rw [List.nil_append] at f2
  have hk : pushPPConditionalKind [PPBranchKind.PP_Unreachable] (v == 0) =
      .PP_Unreachable := by
    simp [pushPPConditionalKind, inUnreachable, PPBranchKind.isUnreachable]
  have e2 : parseStep
      ⟨[], [directiveLine (Tok.ppIf 0)], [], 0, [.PP_Unreachable], [.PP_Unreachable],
        g1, false⟩ (Tok.ppIf v) =
      ⟨[], [directiveLine (Tok.ppIf 0)], [], 0,
        [.PP_Unreachable, .PP_Unreachable], [.PP_Unreachable, .PP_Unreachable],
        g1 ++ [Tok.ppIf v], false⟩ := by
    simp [parseStep, hk, inUnreachable, PPBranchKind.isUnreachable]
  have f3 := foldl_parseStep_unreachable g2
    ⟨[], [directiveLine (Tok.ppIf 0)], [], 0,
      [.PP_Unreachable, .PP_Unreachable], [.PP_Unreachable, .PP_Unreachable],
      g1 ++ [Tok.ppIf v], false⟩
    rfl h2
  dsimp only at f3
  have e3 : parseStep
      ⟨[], [directiveLine (Tok.ppIf 0)], [], 0,
        [.PP_Unreachable, .PP_Unreachable], [.PP_Unreachable, .PP_Unreachable],
        (g1 ++ [Tok.ppIf v]) ++ g2, false⟩ Tok.ppEndif =
      ⟨[], [directiveLine (Tok.ppIf 0)], [], 0,
        [.PP_Unreachable], [.PP_Unreachable, .PP_Unreachable],
        ((g1 ++ [Tok.ppIf v]) ++ g2) ++ [Tok.ppEndif], false⟩ := by
    simp [parseStep, inUnreachable, PPBranchKind.isUnreachable]
  have f4 := foldl_parseStep_unreachable g3
    ⟨[], [directiveLine (Tok.ppIf 0)], [], 0,
      [.PP_Unreachable], [.PP_Unreachable, .PP_Unreachable],
      ((g1 ++ [Tok.ppIf v]) ++ g2) ++ [Tok.ppEndif], false⟩
    rfl h3
  dsimp only at f4
  have e4 : parseStep
      ⟨[], [directiveLine (Tok.ppIf 0)], [], 0,
        [.PP_Unreachable], [.PP_Unreachable, .PP_Unreachable],
        (((g1 ++ [Tok.ppIf v]) ++ g2) ++ [Tok.ppEndif]) ++ g3, false⟩ Tok.ppEndif =
      ⟨[], [directiveLine (Tok.ppIf 0)], [], 0,
        [], [.PP_Unreachable, .PP_Unreachable],
        (((g1 ++ [Tok.ppIf v]) ++ g2) ++ [Tok.ppEndif]) ++ g3, false⟩ := by
    simp [parseStep, inUnreachable, PPBranchKind.isUnreachable]
  have eb : parseRun (Tok.ppIf 0 ::
        (g1 ++ ([Tok.ppIf v] ++ (g2 ++ ([Tok.ppEndif] ++ (g3 ++ [Tok.ppEndif])))))) =
      ⟨[], [directiveLine (Tok.ppIf 0)], [], 0, [], [.PP_Unreachable, .PP_Unreachable],
        g1 ++ [Tok.ppIf v] ++ g2 ++ [Tok.ppEndif] ++ g3, false⟩ := by
    show List.foldl parseStep initPS _ = _
    rw [List.foldl_cons, hst1, List.foldl_append, f2, List.singleton_append,
      List.foldl_cons, e2, List.foldl_append, f3, List.singleton_append,
      List.foldl_cons, e3, List.foldl_append, f4, List.foldl_cons, List.foldl_nil, e4]
  refine ⟨⟨?_, ?_, ?_⟩, ⟨?_, ?_, ?_⟩⟩
  · rw [ea]
  · rw [ea]
  · show ((finishLine (parseRun (Tok.ppIf 0 :: (g ++ [Tok.ppEndif])))).err ||
        decide ((finishLine (parseRun (Tok.ppIf 0 :: (g ++ [Tok.ppEndif])))).depth ≠ 0)) = false
    rw [ea]
    rfl
  · rw [eb]
  · rw [eb]
  · show ((finishLine (parseRun (Tok.ppIf 0 ::
          (g1 ++ ([Tok.ppIf v] ++ (g2 ++ ([Tok.ppEndif] ++ (g3 ++ [Tok.ppEndif])))))))).err ||
        decide ((finishLine (parseRun (Tok.ppIf 0 ::
          (g1 ++ ([Tok.ppIf v] ++ (g2 ++ ([Tok.ppEndif] ++ (g3 ++ [Tok.ppEndif])))))))).depth ≠ 0)) =
      false
    rw [eb]
    rfl
/-- Witness for C5: concrete garbage content — a stray closing brace, a plain token
and an unmatched open brace — inside `#if 0 … #endif`, flat and with a nested
`#if 1` block; parsed without a structural error, retained, and pushed as
unreachable. -/
theorem C5_unreachable_branch_witness :
    ((parseRun (Tok.ppIf 0 :: ([Tok.rbrace, Tok.plain 5, Tok.lbrace] ++ [Tok.ppEndif]))).pushes =
        [.PP_Unreachable] ∧
      (parseRun (Tok.ppIf 0 :: ([Tok.rbrace, Tok.plain 5, Tok.lbrace] ++ [Tok.ppEndif]))).retained =
        [Tok.rbrace, Tok.plain 5, Tok.lbrace] ∧
      (parseTokens (Tok.ppIf 0 :: ([Tok.rbrace, Tok.plain 5, Tok.lbrace] ++ [Tok.ppEndif]))).2 =
        false) ∧
    ((parseRun (Tok.ppIf 0 ::
        ([Tok.rbrace] ++ ([Tok.ppIf 1] ++ ([] ++ ([Tok.ppEndif] ++ ([Tok.plain 9] ++ [Tok.ppEndif]))))))).pushes =
          [.PP_Unreachable, .PP_Unreachable] ∧
      (parseRun (Tok.ppIf 0 ::
        ([Tok.rbrace] ++ ([Tok.ppIf 1] ++ ([] ++ ([Tok.ppEndif] ++ ([Tok.plain 9] ++ [Tok.ppEndif]))))))).retained =
          [Tok.rbrace] ++ [Tok.ppIf 1] ++ [] ++ [Tok.ppEndif] ++ [Tok.plain 9] ∧
      (parseTokens (Tok.ppIf 0 ::
        ([Tok.rbrace] ++ ([Tok.ppIf 1] ++ ([] ++ ([Tok.ppEndif] ++ ([Tok.plain 9] ++ [Tok.ppEndif]))))))).2 =
          false) :=
  C5_unreachable_branch [Tok.rbrace, Tok.plain 5, Tok.lbrace] [Tok.rbrace] [] [Tok.plain 9] 1
    (by decide) (by decide) (by decide) (by decide)

/-- C6: a preprocessor directive arriving while a logical line is still incomplete is
buffered in the deferred directive queue and flushed immediately after the
interrupted line completes: the emitted order is the statement line (with all its
tokens contiguous in one logical line), then the directive line, then any later
lines; and no structural error arises. -/
theorem C6_pp_directive_buffering (pre post rest : List Tok) (d : Nat)
    (hpre : pre ≠ []) (hp : ∀ t ∈ pre, t.isPlain = true)
    (hq : ∀ t ∈ post, t.isPlain = true) (hr : ∀ t ∈ rest, t.isPlain = true) :
    parseTokens (pre ++ ([Tok.ppDirective d] ++ (post ++ ([Tok.semi] ++ (rest ++ [Tok.semi]))))) =
      ([stmtLine (pre ++ post ++ [Tok.semi]) 0,
        directiveLine (Tok.ppDirective d),
        stmtLine (rest ++ [Tok.semi]) 0], false) := by
  have hne : pre.isEmpty = false := by
    cases pre with
    | nil => exact absurd rfl hpre
    | cons a l => rfl
  have fA : List.foldl parseStep initPS pre = ⟨pre, [], [], 0, [], [], [], false⟩ := by
    have h := foldl_parseStep_plain pre initPS rfl hp
    simpa [initPS] using h
  have e1 : parseStep ⟨pre, [], [], 0, [], [], [], false⟩ (Tok.ppDirective d) =
      ⟨pre, [], [directiveLine (Tok.ppDirective d)], 0, [], [], [], false⟩ := by
    simp [parseStep, inUnreachable, emitDirective, hne]
  have fB := foldl_parseStep_plain post
    ⟨pre, [], [directiveLine (Tok.ppDirective d)], 0, [], [], [], false⟩ rfl hq
  dsimp only at fB
  have e2 : parseStep
      ⟨pre ++ post, [], [directiveLine (Tok.ppDirective d)], 0, [], [], [], false⟩ Tok.semi =
      ⟨[], [stmtLine (pre ++ post ++ [Tok.semi]) 0, directiveLine (Tok.ppDirective d)],
        [], 0, [], [], [], false⟩ := by
    simp [parseStep, inUnreachable, finishLine, append_singleton_isEmpty]
  have fC := foldl_parseStep_plain rest
    ⟨[], [stmtLine (pre ++ post ++ [Tok.semi]) 0, directiveLine (Tok.ppDirective d)],
      [], 0, [], [], [], false⟩ rfl hr
  dsimp only at fC
  rw [List.nil_append] at fC
  have e3 : parseStep
      ⟨rest, [stmtLine (pre ++ post ++ [Tok.semi]) 0, directiveLine (Tok.ppDirective d)],
        [], 0, [], [], [], false⟩ Tok.semi =
      ⟨[], [stmtLine (pre ++ post ++ [Tok.semi]) 0, directiveLine (Tok.ppDirective d),
            stmtLine (rest ++ [Tok.semi]) 0], [], 0, [], [], [], false⟩ := by
    simp [parseStep, inUnreachable, finishLine, append_singleton_isEmpty]
  have efinal : parseRun
      (pre ++ ([Tok.ppDirective d] ++ (post ++ ([Tok.semi] ++ (rest ++ [Tok.semi]))))) =
      ⟨[], [stmtLine (pre ++ post ++ [Tok.semi]) 0, directiveLine (Tok.ppDirective d),
            stmtLine (rest ++ [Tok.semi]) 0], [], 0, [], [], [], false⟩ := by
    show List.foldl parseStep initPS _ = _
    rw [List.foldl_append, fA, List.singleton_append, List.foldl_cons, e1,
      List.foldl_append, fB, List.singleton_append, List.foldl_cons, e2,
      List.foldl_append, fC, List.foldl_cons, List.foldl_nil, e3]
  show ((finishLine (parseRun
        (pre ++ ([Tok.ppDirective d] ++ (post ++ ([Tok.semi] ++ (rest ++ [Tok.semi]))))))).lines,
      ((finishLine (parseRun
        (pre ++ ([Tok.ppDirective d] ++ (post ++ ([Tok.semi] ++ (rest ++ [Tok.semi]))))))).err ||
        decide ((finishLine (parseRun
        (pre ++ ([Tok.ppDirective d] ++ (post ++ ([Tok.semi] ++ (rest ++ [Tok.semi]))))))).depth ≠ 0))) =
    ([stmtLine (pre ++ post ++ [Tok.semi]) 0, directiveLine (Tok.ppDirective d),
      stmtLine (rest ++ [Tok.semi]) 0], false)
  rw [efinal]
  rfl

/-- Witness for C6: the statement `plain 1 plain 2 ; ` interrupted by `#define`-style
directive 4 after its first token, followed by statement `plain 3 ;`. -/
theorem C6_pp_directive_buffering_witness :
    parseTokens ([Tok.plain 1] ++ ([Tok.ppDirective 4] ++ ([Tok.plain 2] ++ ([Tok.semi] ++ ([Tok.plain 3] ++ [Tok.semi]))))) =
      ([stmtLine ([Tok.plain 1] ++ [Tok.plain 2] ++ [Tok.semi]) 0,
        directiveLine (Tok.ppDirective 4),
        stmtLine ([Tok.plain 3] ++ [Tok.semi]) 0], false) :=
  C6_pp_directive_buffering [Tok.plain 1] [Tok.plain 2] [Tok.plain 3] 4
    (by decide) (by decide) (by decide) (by decide)

theorem blp_cons (bp ep limit a : Nat) (l : List Nat) (h : l ≠ []) :
    brokenLinesPenalty bp ep limit (a :: l) =
      bp + overflowPenalty a limit ep + brokenLinesPenalty bp ep limit l := by
  cases l with
  | nil => exact absurd rfl h
  | cons b bs => rfl

theorem blp_append_last (bp ep limit w : Nat) :
    ∀ segs : List Nat, brokenLinesPenalty bp ep limit (segs ++ [w]) =
      (segs.map fun x => bp + overflowPenalty x limit ep).sum := by
  intro segs
  induction segs with
  | nil => rfl
  | cons a segs ih =>
      rw [List.cons_append, blp_cons _ _ _ _ _ (by simp), ih]
      simp

/-- C7: when the current token does not stick out past the column limit, or its kind
does not support splitting, `breakProtrudingToken` makes no break and returns 0 (the
overflow is then charged only by the uniform per-state mechanism); when it splits a
protruding splittable token, the returned extra penalty is exactly one break cost
plus the column-limit violation for every resulting line except the last — the
result is independent of the last line, whose overflow is charged by the uniform
mechanism, never twice. -/
theorem C7_break_protruding_token (splittable : Bool) (endColumn limit bp ep w1 w2 : Nat)
    (segs : List Nat) :
    (endColumn ≤ limit → breakProtrudingToken splittable endColumn limit bp ep segs = 0) ∧
    (splittable = false → breakProtrudingToken splittable endColumn limit bp ep segs = 0) ∧
    (breakProtrudingToken splittable endColumn limit bp ep (segs ++ [w1]) =
      breakProtrudingToken splittable endColumn limit bp ep (segs ++ [w2])) ∧
    (limit < endColumn → splittable = true →
      breakProtrudingToken splittable endColumn limit bp ep (segs ++ [w1]) =
        (segs.map fun x => bp + overflowPenalty x limit ep).sum) := by
  refine ⟨?_, ?_, ?_, ?_⟩
  · intro h
    simp [breakProtrudingToken, h]
  · intro h
    by_cases hc : endColumn ≤ limit <;> simp [breakProtrudingToken, hc, h]
  · by_cases hc : endColumn ≤ limit
    · simp [breakProtrudingToken, hc]
    · cases splittable
      · simp [breakProtrudingToken, hc]
      · simp [breakProtrudingToken, hc, blp_append_last]
  · intro h1 h2
    subst h2
    simp [breakProtrudingToken, show ¬endColumn ≤ limit by omega, blp_append_last]

/-- Witness for C7: a protruding splittable token whose split lines end at columns
12, 9 and a last line, with limit 10, break cost 5 and 2 per excess column: the
penalty is the same whatever the last line's extent, and equals
(5 + 2·2) + (5 + 0) = 14, covering the two added breaks and the first line's
two-column violation only. -/
theorem C7_break_protruding_token_witness :
    breakProtrudingToken true 30 10 5 2 [12, 9, 50] =
      breakProtrudingToken true 30 10 5 2 [12, 9, 3] ∧
    breakProtrudingToken true 30 10 5 2 [12, 9, 50] =
      (([12, 9] : List Nat).map fun x => 5 + overflowPenalty x 10 2).sum := by
  have h := C7_break_protruding_token true 30 10 5 2 50 3 [12, 9]
  exact ⟨h.2.2.1, h.2.2.2 (by omega) rfl⟩

theorem lastLineColumn_append (w : Nat) :
    ∀ (xs : List Nat) (c : Nat), lastLineColumn c (xs ++ [w]) = w := by
  intro xs
  induction xs with
  | nil => intro c; rfl
  | cons x xs ih => intro c; exact ih x

/-- C8: processing a multiline string literal charges the extra penalty once, for the
literal's first line only; the state's tracked column switches to the literal's last
line; and the result is entirely independent of the literal's interior lines, whose
layout the algorithm leaves unchanged. -/
theorem C8_multiline_string_literal (first lst col limit ep : Nat)
    (interior interior2 : List Nat) :
    addMultilineStringLiteral (first :: (interior ++ [lst])) col limit ep =
      (overflowPenalty (col + first) limit ep, lst) ∧
    addMultilineStringLiteral (first :: (interior ++ [lst])) col limit ep =
      addMultilineStringLiteral (first :: (interior2 ++ [lst])) col limit ep := by
  have h1 : addMultilineStringLiteral (first :: (interior ++ [lst])) col limit ep =
      (overflowPenalty (col + first) limit ep, lst) := by
    show (overflowPenalty (col + first) limit ep,
      lastLineColumn (col + first) (interior ++ [lst])) = _
    rw [lastLineColumn_append]
  have h2 : addMultilineStringLiteral (first :: (interior2 ++ [lst])) col limit ep =
      (overflowPenalty (col + first) limit ep, lst) := by
    show (overflowPenalty (col + first) limit ep,
      lastLineColumn (col + first) (interior2 ++ [lst])) = _
    rw [lastLineColumn_append]
  exact ⟨h1, h1.trans h2.symm⟩

end ClangFormat
